import Mathlib

/-!
Verification of the Netflix pricing scraper (src/netflix_scraper.py).

The Python source is shallowly embedded: pure string processing
(`extract_price_details` and the HTML-row parsing inside `process_country`)
becomes pure Lean functions on `String` / `List Char`; the browser-automation
steps (playwright calls) become an explicit `Page` record of step outcomes,
each either succeeding or raising an exception message; the batch
orchestration in `main` becomes a pure function over the discovered country
list, parameterized by the completion order of the concurrent tasks within
each batch.

Python/regex semantics are modelled at ASCII fidelity: `str.lower` is
ASCII lowercasing (`Char.toLower`), `str.strip` and the regex class `\s`
both use the six ASCII whitespace characters, `\d` is ASCII digits.
-/

namespace NetflixScraper

/-- The six ASCII whitespace characters: Python `str.strip` default and the
regex class `\s` (ASCII part). -/
def isSpaceChar (c : Char) : Bool :=
  c == ' ' || c == '\t' || c == '\n' || c == '\r' || c == '\x0b' || c == '\x0c'

/-- The regex class `[\d,.]` of `re.search(r"([\d,.]+)", price_part)`. -/
def isNumChar (c : Char) : Bool :=
  c.isDigit || c == ',' || c == '.'

/-- The regex class `[^\d\s,.]` of `re.search(r"([^\d\s,.]+)", price_part)`. -/
def isCurrencyChar (c : Char) : Bool :=
  !c.isDigit && !isSpaceChar c && !(c == ',') && !(c == '.')

/-- Python `str.strip()`: drop whitespace from both ends. -/
def pyStrip (l : List Char) : List Char :=
  ((l.dropWhile isSpaceChar).reverse.dropWhile isSpaceChar).reverse

/-- Python substring test `pat in l` (for a nonempty pattern: some suffix of
`l` starts with `pat`). -/
def containsList (pat : List Char) : List Char → Bool
  | [] => pat.isEmpty
  | c :: cs => pat.isPrefixOf (c :: cs) || containsList pat cs

/-- The characters of the month marker. -/
def monthChars : List Char := [ 'm', 'o', 'n', 't', 'h' ]

/-- Python `"month" in price_text.lower()` (line 14). -/
def containsMonth (l : List Char) : Bool :=
  containsList monthChars (l.map Char.toLower)

/-- Match `pat` case-insensitively against the start of the input; on success
return the remainder after the matched characters. -/
def stripLowerPat : List Char → List Char → Option (List Char)
  | [], l => some l
  | _ :: _, [] => none
  | p :: ps, c :: cs => if c.toLower = p then stripLowerPat ps cs else none

/-- Match the regex `/\s*month` (with `re.IGNORECASE`) at the head of the
input; on success return the remainder after the match.  The greedy `\s*`
consumes exactly the maximal whitespace run, since `m` is not whitespace. -/
def monthPatAt : List Char → Option (List Char)
  | '/' :: rest => stripLowerPat monthChars (rest.dropWhile isSpaceChar)
  | _ => none

/-- Leftmost occurrence of the `/\s*month` pattern: on success return the
prefix before the match and the remainder after it (the two pieces that
`re.split(r"/\s*month", text, flags=re.IGNORECASE)` builds its first two
segments from, line 21). -/
def findMonth : List Char → Option (List Char × List Char)
  | [] => none
  | c :: cs =>
    match monthPatAt (c :: cs) with
    | some rest => some ( [], rest)
    | none => (findMonth cs).map (fun p => (c :: p.1, p.2))

/-- The segment of the input before its first `/\s*month` occurrence (the
whole input when there is none): `month_split[0]`, and also, applied to the
remainder after the first match, `month_split[1]`. -/
def firstSeg (l : List Char) : List Char :=
  match findMonth l with
  | some p => p.1
  | none => l

/-- Leftmost-then-greedy match of `[class]+`: the first contiguous run of
characters satisfying `p`. -/
def firstRun (p : Char → Bool) : List Char → Option (List Char)
  | [] => none
  | c :: cs => if p c then some (c :: cs.takeWhile p) else firstRun p cs

/-- The string literal used for the undetermined currency / passthrough. -/
def strUnknown : String := "Unknown"

/-- Embedding of `extract_price_details` (src/netflix_scraper.py lines 10-32). -/
def extract_price_details (s : String) : String × String × String :=
  if s.data.isEmpty || !containsMonth s.data then (strUnknown, String.mk [], s)
  else
    let text := pyStrip s.data
    let notePart :=
      match findMonth text with
      | some p => pyStrip (firstSeg p.2)
      | none => ([] : List Char)
    let pricePart := pyStrip (firstSeg text)
    let amount :=
      match firstRun isNumChar pricePart with
      | some run => run.filter (fun c => !(c == ','))
      | none => ([] : List Char)
    let currency :=
      match firstRun isCurrencyChar pricePart with
      | some run => run
      | none => strUnknown.data
    (String.mk currency, String.mk amount, String.mk notePart)

/-- The price segment `price_part` that `extract_price_details` scans for the
amount and the currency token (line 22). -/
def pricePartOf (s : String) : List Char :=
  pyStrip (firstSeg (pyStrip s.data))

/-- One output row, the dict built at lines 70-77 / 79 / 86. -/
structure PriceRecord where
  country : String
  plan : String
  price : String
  currency : String
  amount : String
  note : String
  deriving DecidableEq, Repr

/-- The fallback row of line 79. -/
def naRecord (country : String) : PriceRecord :=
  { country := country, plan := "N/A", price := "N/A",
    currency := "", amount := "", note := "" }

/-- The error row of line 86. -/
def errorRecord (country msg : String) : PriceRecord :=
  { country := country, plan := "ERROR", price := msg,
    currency := "", amount := "", note := "" }

/-- Python `split(":", 1)` on a string known to contain a colon: the pieces
before and after the first colon (for a colon-free input the whole input is
the first piece). -/
def splitFirstColon : List Char → List Char × List Char
  | [] => ( [], [])
  | c :: cs =>
    if c = ':' then ( [], cs)
    else
      let p := splitFirstColon cs
      (c :: p.1, p.2)

/-- The per-list-item step of the loop at lines 66-77: items whose text
contains a colon are split on the first colon of the stripped text into the
plan and the price text; other items are skipped. -/
def parseLi (country : String) (liText : String) : Option PriceRecord :=
  if containsList [ ':'] liText.data then
    let p := splitFirstColon (pyStrip liText.data)
    let priceText := String.mk (pyStrip p.2)
    let e := extract_price_details priceText
    some { country := country, plan := String.mk (pyStrip p.1),
           price := priceText, currency := e.1, amount := e.2.1, note := e.2.2 }
  else none

/-- The parsed page, abstracting the BeautifulSoup queries of lines 61-66:
whether an `h3` whose text contains "Pricing" exists, whether a `ul` follows
it, and the text of that list's `li` items. -/
inductive Doc where
  | noHeader
  | headerNoUl
  | headerUl (items : List String)
  deriving DecidableEq, Repr

/-- The rows accumulated by the loop at lines 63-77. -/
def parseRows (country : String) : Doc → List PriceRecord
  | .noHeader => []
  | .headerNoUl => []
  | .headerUl items => items.filterMap (parseLi country)

/-- Lines 59-79: parse the rendered page, then fall back to the single N/A
record when no row was produced. -/
def processDoc (country : String) (doc : Doc) : List PriceRecord :=
  let results := parseRows country doc
  if results.isEmpty then [naRecord country] else results

/-- The list items of the pricing section whose text contains a colon (the
items that produce rows). -/
def colonItems : Doc → List String
  | .noHeader => []
  | .headerNoUl => []
  | .headerUl items => items.filter (fun li => containsList [ ':'] li.data)

/-- Outcome of one awaited browser call: normal return or a raised
exception carrying its message string. -/
inductive Step (α : Type) where
  | ok (val : α)
  | raise (msg : String)
  deriving DecidableEq, Repr

/-- The behaviour a page handle exhibits for one `process_country` run: the
outcome of each awaited playwright call of lines 42-59, in program order
(`page.goto`, the cookie-banner click, the dropdown click,
`wait_for_selector`, `fill`, `type`, `press`, `page.content`), with the
retrieved HTML already abstracted to a `Doc`. -/
structure Page where
  goto : Step Unit
  cookieClick : Step Unit
  dropdownClick : Step Unit
  waitForInput : Step Unit
  fillInput : Step Unit
  typeCountry : Step Unit
  pressEnter : Step Unit
  content : Step Doc
  deriving DecidableEq, Repr

/-- Embedding of `process_country` (lines 38-86): the steps run in order
inside the outer `try`; the first exception jumps to the `except` handler of
line 84, which returns the single ERROR record.  The cookie-banner click sits
in its own inner `try/except: pass` (lines 46-49), so its outcome is
inspected and discarded. -/
def process_country (country : String) (page : Page) : List PriceRecord :=
  match page.goto with
  | .raise m => [errorRecord country m]
  | .ok _ =>
    match page.cookieClick with
    | _ =>
      match page.dropdownClick with
      | .raise m => [errorRecord country m]
      | .ok _ =>
        match page.waitForInput with
        | .raise m => [errorRecord country m]
        | .ok _ =>
          match page.fillInput with
          | .raise m => [errorRecord country m]
          | .ok _ =>
            match page.typeCountry with
            | .raise m => [errorRecord country m]
            | .ok _ =>
              match page.pressEnter with
              | .raise m => [errorRecord country m]
              | .ok _ =>
                match page.content with
                | .raise m => [errorRecord country m]
                | .ok doc => processDoc country doc

/-- The message of the first exception that reaches the outer `try` of
`process_country` (the swallowed cookie-click step excluded), if any. -/
def firstRaise (page : Page) : Option String :=
  match page.goto with
  | .raise m => some m
  | .ok _ =>
    match page.dropdownClick with
    | .raise m => some m
    | .ok _ =>
      match page.waitForInput with
      | .raise m => some m
      | .ok _ =>
        match page.fillInput with
        | .raise m => some m
        | .ok _ =>
          match page.typeCountry with
          | .raise m => some m
          | .ok _ =>
            match page.pressEnter with
            | .raise m => some m
            | .ok _ =>
              match page.content with
              | .raise m => some m
              | .ok _ => none

/-- Python `range(0, stop, step)` for a positive step: the multiples of
`step` below `stop` (their count is `stop / step` rounded up). -/
def pyRangeBy (stop step : Nat) : List Nat :=
  (List.range ((stop + step - 1) / step)).map (fun j => j * step)

/-- The slice `countries[i:i+batch_size]` of line 119 (batch_size = 5). -/
def batchSlice (countries : List String) (i : Nat) : List String :=
  (countries.drop i).take 5

/-- The consecutive batches the loop of lines 115-129 works through. -/
def batches5 (countries : List String) : List (List String) :=
  (pyRangeBy countries.length 5).map (batchSlice countries)

/-- Modelled from the spec: `asyncio.gather` (an external collaborator) runs
the batch's tasks concurrently and returns their results positionally, not in
completion order.  The completed `(task index, task result)` pairs are
collected in the completion order `order` ... -/
def runCompletion (tasks : List (List PriceRecord)) (order : List Nat) :
    List (Nat × List PriceRecord) :=
  order.filterMap (fun i => (tasks.get? i).map (fun r => (i, r)))

/-- ... and read back positionally, by task index. -/
def readPositional (pairs : List (Nat × List PriceRecord)) (n : Nat) :
    List (List PriceRecord) :=
  (List.range n).map (fun i => ((pairs.find? (fun q => q.1 == i)).map Prod.snd).getD [])

/-- `await asyncio.gather(*tasks)` (line 124) under completion order `order`. -/
def gatherModel (tasks : List (List PriceRecord)) (order : List Nat) :
    List (List PriceRecord) :=
  readPositional (runCompletion tasks order) tasks.length

/-- Embedding of the batching loop of `main` (lines 112-126): for each batch
start index `i`, one fresh tab per country of the slice (its behaviour given
by `env`), `process_country` as the batch's tasks, `asyncio.gather` under the
batch's completion order `sched i`, then `results.extend(res)` for each
per-country result list, batches in order. -/
def mainResults (env : String → Page) (countries : List String)
    (sched : Nat → List Nat) : List PriceRecord :=
  ((pyRangeBy countries.length 5).map (fun i =>
    (gatherModel ((batchSlice countries i).map (fun c => process_country c (env c)))
      (sched i)).flatten)).flatten

/-- Observable tab events of the batching loop, tagged with the index of the
batch that performs them. -/
inductive Ev where
  | openTab (batch : Nat) (country : String)
  | scrapeStep (batch : Nat) (country : String)
  | closeTab (batch : Nat) (country : String)
  deriving DecidableEq, Repr

/-- The batch index an event belongs to. -/
def Ev.batchIdx : Ev → Nat
  | .openTab b _ => b
  | .scrapeStep b _ => b
  | .closeTab b _ => b

/-- The events of one iteration of the batch loop: lines 119-122 open one tab
per country of the batch (sequentially, before any task runs), line 124 runs
the scrapes concurrently — `mid` is an arbitrary interleaving of their
steps — and lines 128-129 close the batch's tabs only after the gather
returned. -/
def batchTrace (b : Nat) (batch : List String) (mid : List Ev) : List Ev :=
  batch.map (Ev.openTab b) ++ mid ++ batch.map (Ev.closeTab b)

/-- The full event trace of the batching loop, for per-batch scrape-step
interleavings `mids` (indexed by batch index). -/
def mainTrace (countries : List String) (mids : Nat → List Ev) : List Ev :=
  (((pyRangeBy countries.length 5).enum).map (fun p =>
    batchTrace p.1 (batchSlice countries p.2) (mids p.1))).flatten

/-- Right-hand half of `pyStrip`: drop trailing whitespace. -/
def rstripSp (l : List Char) : List Char :=
  (l.reverse.dropWhile isSpaceChar).reverse

/-- A page handle on which every browser call succeeds and the rendered HTML
parses to `doc`. -/
def okPageOf (doc : Doc) : Page :=
  { goto := .ok (), cookieClick := .ok (), dropdownClick := .ok (),
    waitForInput := .ok (), fillInput := .ok (), typeCountry := .ok (),
    pressEnter := .ok (), content := .ok doc }

/-- A page on which only the cookie-banner click raises; everything else
succeeds and the page shows no pricing heading. -/
def cookieFailPage : Page :=
  { okPageOf Doc.noHeader with cookieClick := .raise "cookie banner missing" }

/-- A page whose initial navigation times out. -/
def gotoFailPage : Page :=
  { okPageOf Doc.noHeader with goto := .raise "Timeout 60000ms exceeded" }

/-- Twelve country labels, for exercising the 5/5/2 batching. -/
def wCountries : List String :=
  [ "Argentina", "Belgium", "Canada", "Denmark", "Ecuador", "France",
    "Germany", "Hungary", "India", "Japan", "Kenya", "Latvia" ]

/-- A page environment where every country's page shows one priced plan. -/
def wEnv : String → Page :=
  fun _ => okPageOf (Doc.headerUl [ "Standard: $15.49/month" ])

/-- Completion orders for the three batches of `wCountries`: each batch
finishes in reverse launch order. -/
def wSched : Nat → List Nat :=
  fun i => if i = 10 then [1, 0] else [4, 3, 2, 1, 0]

/-- A trivial in-batch interleaving: no scrape steps recorded. -/
def wMids : Nat → List Ev :=
  fun _ => []

/-! ### Lemmas about stripping -/

theorem dropWhile_dropWhile {α : Type} (p : α → Bool) (l : List α) :
    (l.dropWhile p).dropWhile p = l.dropWhile p := by
  induction l with
  | nil => rfl
  | cons c cs ih =>
    cases h : p c <;> simp [List.dropWhile_cons, h, ih]

theorem rstripSp_rstripSp (l : List Char) : rstripSp (rstripSp l) = rstripSp l := by
  simp [rstripSp, dropWhile_dropWhile]

theorem rstripSp_cons (c : Char) (cs : List Char) :
    rstripSp (c :: cs) =
      if (rstripSp cs).isEmpty then (if isSpaceChar c then [] else [c])
      else c :: rstripSp cs := by
  simp only [rstripSp, List.reverse_cons, List.dropWhile_append]
  rcases e : List.dropWhile isSpaceChar cs.reverse with _ | ⟨d, ds⟩ <;>
    cases hc : isSpaceChar c <;>
      simp [List.dropWhile_cons, hc]

theorem dropWhile_rstripSp_comm (l : List Char) :
    (rstripSp l).dropWhile isSpaceChar = rstripSp (l.dropWhile isSpaceChar) := by
  induction l with
  | nil => rfl
  | cons c cs ih =>
    rw [rstripSp_cons, List.dropWhile_cons]
    cases hc : isSpaceChar c <;> cases e : (rstripSp cs).isEmpty
    · simp [hc, e, List.dropWhile_cons, rstripSp_cons]
    · simp [hc, e, List.dropWhile_cons, rstripSp_cons]
    · simp [hc, e, List.dropWhile_cons, ih]
    · have h1 : List.dropWhile isSpaceChar cs.reverse = [] := by
        have h0 := List.isEmpty_iff.mp e
        unfold rstripSp at h0
        exact List.reverse_eq_nil_iff.mp h0
      have h3 : List.dropWhile isSpaceChar cs = [] :=
        List.dropWhile_eq_nil_iff.mpr
          (fun x hx => List.dropWhile_eq_nil_iff.mp h1 x (List.mem_reverse.mpr hx))
      simp [hc, e, h3, rstripSp]

theorem pyStrip_eq (l : List Char) :
    pyStrip l = rstripSp (l.dropWhile isSpaceChar) := rfl

theorem pyStrip_idem (l : List Char) : pyStrip (pyStrip l) = pyStrip l := by
  rw [pyStrip_eq, pyStrip_eq, dropWhile_rstripSp_comm, dropWhile_dropWhile,
    rstripSp_rstripSp]

theorem mem_dropWhile_of_mem {α : Type} {p : α → Bool} {c : α} {l : List α}
    (hm : c ∈ l) (hc : p c = false) : c ∈ l.dropWhile p := by
  rw [← List.takeWhile_append_dropWhile p l] at hm
  rcases List.mem_append.mp hm with h | h
  · have := List.mem_takeWhile_imp h
    rw [hc] at this
    cases this
  · exact h

theorem mem_pyStrip_of_mem {c : Char} {l : List Char}
    (hm : c ∈ l) (hc : isSpaceChar c = false) : c ∈ pyStrip l := by
  unfold pyStrip
  exact List.mem_reverse.mpr
    (mem_dropWhile_of_mem (List.mem_reverse.mpr (mem_dropWhile_of_mem hm hc)) hc)

/-! ### Lemmas about scanning -/

theorem firstRun_eq_none_iff (p : Char → Bool) (l : List Char) :
    firstRun p l = none ↔ ∀ c ∈ l, p c = false := by
  induction l with
  | nil => simp [firstRun]
  | cons c cs ih =>
    cases h : p c <;> simp [firstRun, h, ih]

theorem head?_dropWhile {α : Type} (p : α → Bool) (l : List α) :
    ∀ c, (l.dropWhile p).head? = some c → p c = false := by
  induction l with
  | nil => intro c h; simp at h
  | cons d ds ih =>
    intro c h
    cases hd : p d
    · rw [List.dropWhile_cons, hd] at h
      simp at h
      exact h ▸ hd
    · rw [List.dropWhile_cons, hd] at h
      exact ih c (by simpa using h)

theorem firstRun_some_spec (p : Char → Bool) :
    ∀ l run, firstRun p l = some run →
      ∃ a b, l = a ++ run ++ b ∧ (∀ c ∈ a, p c = false) ∧ run ≠ [] ∧
        (∀ c ∈ run, p c = true) ∧ ∀ c, b.head? = some c → p c = false := by
  intro l
  induction l with
  | nil => intro run h; simp [firstRun] at h
  | cons c cs ih =>
    intro run h
    cases hc : p c
    · rw [firstRun, hc] at h
      simp only [Bool.false_eq_true, if_false] at h
      obtain ⟨a, b, h1, h2, h3, h4, h5⟩ := ih run h
      exact ⟨c :: a, b, by simp [h1], by
        intro d hd
        rcases List.mem_cons.mp hd with rfl | hd
        · exact hc
        · exact h2 d hd, h3, h4, h5⟩
    · rw [firstRun, hc] at h
      simp only [if_true, Option.some_inj] at h
      refine ⟨ [], cs.dropWhile p, ?_, by simp, by simp [← h], ?_, ?_⟩
      · simp [← h, List.takeWhile_append_dropWhile]
      · intro d hd
        rw [← h] at hd
        rcases List.mem_cons.mp hd with rfl | hd
        · exact hc
        · exact List.mem_takeWhile_imp hd
      · exact head?_dropWhile p cs

theorem monthPatAt_nil : monthPatAt [] = none := rfl

theorem findMonth_eq_none {l : List Char} (h : findMonth l = none) :
    ∀ j, monthPatAt (l.drop j) = none := by
  induction l with
  | nil => intro j; rw [List.drop_nil]; rfl
  | cons c cs ih =>
    intro j
    cases hm : monthPatAt (c :: cs) with
    | some r => rw [findMonth, hm] at h; cases h
    | none =>
      have h2 : findMonth cs = none := by
        rw [findMonth, hm] at h
        cases hf : findMonth cs with
        | none => rfl
        | some q => rw [hf] at h; cases h
      cases j with
      | zero => exact hm
      | succ j => rw [List.drop_succ_cons]; exact ih h2 j

theorem findMonth_eq_some :
    ∀ {l b rest : List Char}, findMonth l = some (b, rest) →
      (∃ mid, l = b ++ mid ∧ monthPatAt mid = some rest) ∧
        ∀ j < b.length, monthPatAt (l.drop j) = none := by
  intro l
  induction l with
  | nil => intro b rest h; cases h
  | cons c cs ih =>
    intro b rest h
    cases hm : monthPatAt (c :: cs) with
    | some r =>
      rw [findMonth, hm] at h
      obtain ⟨rfl, rfl⟩ : b = [] ∧ rest = r := by
        constructor <;> cases h <;> rfl
      exact ⟨⟨c :: cs, rfl, hm⟩, by simp⟩
    | none =>
      rw [findMonth, hm] at h
      cases hf : findMonth cs with
      | none => rw [hf] at h; cases h
      | some q =>
        obtain ⟨q1, q2⟩ := q
        rw [hf] at h
        obtain ⟨h1, h2⟩ : b = c :: q1 ∧ rest = q2 := by
          cases h; exact ⟨rfl, rfl⟩
        obtain ⟨⟨mid, hcs, hmid⟩, hnone⟩ := ih hf
        subst h1
        subst h2
        refine ⟨⟨mid, by simp [hcs], hmid⟩, ?_⟩
        intro j hj
        cases j with
        | zero => exact hm
        | succ j =>
          rw [List.drop_succ_cons]
          exact hnone j (by simpa using hj)

theorem splitFirstColon_spec :
    ∀ l : List Char, ':' ∈ l →
      l = (splitFirstColon l).1 ++ ':' :: (splitFirstColon l).2 ∧
        ':' ∉ (splitFirstColon l).1 := by
  intro l
  induction l with
  | nil => intro h; cases h
  | cons c cs ih =>
    intro h
    by_cases hc : c = ':'
    · subst hc
      simp [splitFirstColon]
    · have hcs : ':' ∈ cs := by
        rcases List.mem_cons.mp h with h' | h'
        · exact absurd h'.symm hc
        · exact h'
      obtain ⟨h1, h2⟩ := ih hcs
      rw [splitFirstColon]
      simp only [if_neg hc]
      constructor
      · simpa using h1
      · intro hmem
        rcases List.mem_cons.mp hmem with h' | h'
        · exact hc h'.symm
        · exact h2 h'

theorem containsList_singleton (c : Char) (l : List Char) :
    containsList [c] l = true ↔ c ∈ l := by
  induction l with
  | nil => simp [containsList, List.isEmpty]
  | cons d ds ih =>
    simp [containsList, List.isPrefixOf, ih]

/-! ### Lemmas about the per-country scrape -/

theorem process_country_cases (c : String) (page : Page) :
    (∃ m, firstRaise page = some m ∧ process_country c page = [errorRecord c m]) ∨
      (∃ doc, firstRaise page = none ∧ page.content = Step.ok doc ∧
        process_country c page = processDoc c doc) := by
  rcases page with ⟨g, ck, dd, wi, fi, tc, pe, ct⟩
  cases g with
  | raise m => exact Or.inl ⟨m, rfl, rfl⟩
  | ok _ =>
    cases ck
    all_goals
      cases dd with
      | raise m => exact Or.inl ⟨m, rfl, rfl⟩
      | ok _ =>
        cases wi with
        | raise m => exact Or.inl ⟨m, rfl, rfl⟩
        | ok _ =>
          cases fi with
          | raise m => exact Or.inl ⟨m, rfl, rfl⟩
          | ok _ =>
            cases tc with
            | raise m => exact Or.inl ⟨m, rfl, rfl⟩
            | ok _ =>
              cases pe with
              | raise m => exact Or.inl ⟨m, rfl, rfl⟩
              | ok _ =>
                cases ct with
                | raise m => exact Or.inl ⟨m, rfl, rfl⟩
                | ok doc => exact Or.inr ⟨doc, rfl, rfl, rfl⟩

theorem parseLi_some {c li : String} {r : PriceRecord}
    (h : parseLi c li = some r) :
    r.country = c ∧
      r.price = String.mk (pyStrip (splitFirstColon (pyStrip li.data)).2) ∧
      r.plan = String.mk (pyStrip (splitFirstColon (pyStrip li.data)).1) ∧
      r.currency = (extract_price_details r.price).1 ∧
      r.amount = (extract_price_details r.price).2.1 ∧
      r.note = (extract_price_details r.price).2.2 ∧
      ':' ∈ li.data := by
  unfold parseLi at h
  cases hc : containsList [ ':'] li.data
  · rw [hc] at h
    cases h
  · rw [hc] at h
    simp only [if_true, Option.some_inj] at h
    subst h
    exact ⟨rfl, rfl, rfl, rfl, rfl, rfl, (containsList_singleton _ _).mp hc⟩

theorem extract_currency_ne_empty (s : String) : (extract_price_details s).1 ≠ "" := by
  unfold extract_price_details
  cases hb : (s.data.isEmpty || !containsMonth s.data)
  · simp only [hb, Bool.false_eq_true, if_false]
    cases hr : firstRun isCurrencyChar (pyStrip (firstSeg (pyStrip s.data)))
    · simp [hr]
      decide
    · simp [hr]
      intro hcontra
      obtain ⟨_, _, _, _, h3, _, _⟩ := firstRun_some_spec isCurrencyChar _ _ hr
      exact h3 (congrArg String.data hcontra)
  · simp only [hb, if_true]
    decide

theorem comma_not_mem_extract_amount (s : String) :
    ',' ∉ (extract_price_details s).2.1.data := by
  unfold extract_price_details
  cases hb : (s.data.isEmpty || !containsMonth s.data)
  · simp only [hb, Bool.false_eq_true, if_false]
    cases hr : firstRun isNumChar (pyStrip (firstSeg (pyStrip s.data)))
    · simp [hr]
    · simp [hr]
  · simp [hb]

theorem processDoc_eq (c : String) (doc : Doc) :
    processDoc c doc =
      if (parseRows c doc).isEmpty then [naRecord c] else parseRows c doc := rfl

theorem mem_process_country {c : String} {page : Page} {r : PriceRecord}
    (h : r ∈ process_country c page) :
    (∃ m, r = errorRecord c m) ∨ r = naRecord c ∨ ∃ li, parseLi c li = some r := by
  rcases process_country_cases c page with ⟨m, _, he⟩ | ⟨doc, _, _, hd⟩
  · rw [he] at h
    exact Or.inl ⟨m, (List.mem_singleton.mp h)⟩
  · rw [hd, processDoc_eq] at h
    cases hres : (parseRows c doc).isEmpty
    · rw [hres] at h
      simp only [Bool.false_eq_true, if_false] at h
      cases doc with
      | noHeader => simp [parseRows] at h
      | headerNoUl => simp [parseRows] at h
      | headerUl items =>
        obtain ⟨li, _, hli⟩ := List.mem_filterMap.mp h
        exact Or.inr (Or.inr ⟨li, hli⟩)
    · rw [hres] at h
      simp only [if_true] at h
      exact Or.inr (Or.inl (List.mem_singleton.mp h))

/-! ### Lemmas about the batch orchestration -/

theorem gatherModel_of_perm (tasks : List (List PriceRecord)) (order : List Nat)
    (h : order.Perm (List.range tasks.length)) : gatherModel tasks order = tasks := by
  unfold gatherModel readPositional
  apply List.ext_getElem
  · simp
  · intro n h₁ h₂
    rw [List.getElem_map, List.getElem_range]
    have hmem : (n, tasks[n]) ∈ runCompletion tasks order := by
      apply List.mem_filterMap.mpr
      refine ⟨n, h.mem_iff.mpr (List.mem_range.mpr h₂), ?_⟩
      rw [List.get?_eq_getElem?, List.getElem?_eq_getElem h₂]
      rfl
    cases hf : (runCompletion tasks order).find? (fun q => q.1 == n) with
    | none =>
      exfalso
      have := List.find?_eq_none.mp hf _ hmem
      simp at this
    | some q =>
      have hq1 : q.1 = n := by
        have := List.find?_some hf
        simpa using this
      obtain ⟨i, hi, hmap⟩ := List.mem_filterMap.mp (List.mem_of_find?_eq_some hf)
      cases hg : tasks.get? i with
      | none => rw [hg] at hmap; cases hmap
      | some r =>
        rw [hg] at hmap
        simp at hmap
        have hin : i = n := by rw [← hq1, ← hmap]
        rw [hin] at hg
        rw [List.get?_eq_getElem?, List.getElem?_eq_getElem h₂] at hg
        have hr : r = tasks[n] := (Option.some_inj.mp hg).symm
        rw [← hmap]
        simpa using hr

theorem flatten_map_flatten {α : Type} (L : List (List (List α))) :
    (L.map List.flatten).flatten = L.flatten.flatten := by
  induction L with
  | nil => rfl
  | cons l ls ih => simp [List.flatten_append, ih]

theorem chunks_concat {α : Type} (k : Nat) :
    ∀ n (l : List α), l.length = n →
      ((pyRangeBy l.length (k + 1)).map (fun i => (l.drop i).take (k + 1))).flatten
        = l := by
  intro n
  induction n using Nat.strong_induction_on with
  | _ n ih =>
    intro l hl
    cases l with
    | nil =>
      have h1 : ((0 : Nat) + (k + 1) - 1) / (k + 1) = 0 := by
        have h2 : (0 : Nat) + (k + 1) - 1 = k := by omega
        rw [h2]
        exact Nat.div_eq_of_lt (Nat.lt_succ_self k)
      have h0 : pyRangeBy (List.length ([] : List α)) (k + 1) = [] := by
        rw [pyRangeBy, List.length_nil, h1]
        rfl
      rw [h0]
      rfl
    | cons c cs =>
      have hn : cs.length + 1 = n := by simpa using hl
      have hcount : (List.length (c :: cs) + (k + 1) - 1) / (k + 1)
          = cs.length / (k + 1) + 1 := by
        have h2 : List.length (c :: cs) + (k + 1) - 1 = cs.length + (k + 1) := by
          simp
          omega
        rw [h2, Nat.add_div_right _ (Nat.succ_pos k)]
      have hrange : pyRangeBy (List.length (c :: cs)) (k + 1)
          = 0 :: (List.range (cs.length / (k + 1))).map (fun j => (j + 1) * (k + 1)) := by
        rw [pyRangeBy, hcount, List.range_succ_eq_map, List.map_cons, List.map_map]
        simp [Function.comp_def, Nat.succ_eq_add_one]
      rw [hrange, List.map_cons, List.flatten_cons, List.map_map]
      have hdrop : ∀ j : Nat,
          (c :: cs : List α).drop ((j + 1) * (k + 1))
            = ((c :: cs).drop (k + 1)).drop (j * (k + 1)) := by
        intro j
        rw [List.drop_drop]
        congr 1
        ring
      have hlen' : ((c :: cs : List α).drop (k + 1)).length = cs.length - k := by
        simp
      have hcc : (((c :: cs : List α).drop (k + 1)).length + (k + 1) - 1) / (k + 1)
          = cs.length / (k + 1) := by
        rw [hlen']
        rcases le_or_lt k cs.length with h | h
        · have h3 : cs.length - k + (k + 1) - 1 = cs.length := by omega
          rw [h3]
        · have h3 : cs.length - k + (k + 1) - 1 = k := by omega
          rw [h3, Nat.div_eq_of_lt (Nat.lt_succ_self k),
            Nat.div_eq_of_lt (by omega : cs.length < k + 1)]
      have hrec : ((pyRangeBy ((c :: cs : List α).drop (k + 1)).length (k + 1)).map
            (fun i => (((c :: cs).drop (k + 1)).drop i).take (k + 1)))
          = (List.range (cs.length / (k + 1))).map
              ((fun i => ((c :: cs : List α).drop i).take (k + 1)) ∘
                fun j => (j + 1) * (k + 1)) := by
        rw [pyRangeBy, hcc, List.map_map]
        apply List.map_congr_left
        intro j _
        simp only [Function.comp]
        rw [hdrop j]
      rw [← hrec, ih (cs.length - k) (by omega) _ hlen', List.drop_zero,
        List.take_append_drop]

theorem chunks_flatten_concat {α : Type} (k : Nat) (M : List (List α)) :
    ((pyRangeBy M.length (k + 1)).map (fun i => ((M.drop i).take (k + 1)).flatten)).flatten
      = M.flatten := by
  have h1 : (pyRangeBy M.length (k + 1)).map (fun i => ((M.drop i).take (k + 1)).flatten)
      = ((pyRangeBy M.length (k + 1)).map (fun i => (M.drop i).take (k + 1))).map
          List.flatten := by
    rw [List.map_map]
    rfl
  rw [h1, flatten_map_flatten, chunks_concat k M.length M rfl]

theorem mainResults_eq (env : String → Page) (countries : List String)
    (sched : Nat → List Nat)
    (h : ∀ i ∈ pyRangeBy countries.length 5,
      (sched i).Perm (List.range (batchSlice countries i).length)) :
    mainResults env countries sched
      = (countries.map (fun c => process_country c (env c))).flatten := by
  unfold mainResults
  have hstep : ∀ i ∈ pyRangeBy countries.length 5,
      (gatherModel ((batchSlice countries i).map (fun c => process_country c (env c)))
          (sched i)).flatten
        = ((batchSlice countries i).map (fun c => process_country c (env c))).flatten := by
    intro i hi
    rw [gatherModel_of_perm]
    rw [List.length_map]
    exact h i hi
  rw [List.map_congr_left hstep]
  have hslice : ∀ i ∈ pyRangeBy countries.length 5,
      ((batchSlice countries i).map (fun c => process_country c (env c))).flatten
        = (((countries.map (fun c => process_country c (env c))).drop i).take 5).flatten := by
    intro i _
    unfold batchSlice
    rw [List.map_take, List.map_drop]
  rw [List.map_congr_left hslice]
  have hlen : countries.length
      = (countries.map (fun c => process_country c (env c))).length := by
    rw [List.length_map]
  rw [hlen, show (5 : Nat) = 4 + 1 from rfl,
    chunks_flatten_concat 4 (countries.map (fun c => process_country c (env c)))]

/-! ### Lemmas about the event trace -/

theorem pairwise_flatten_batchIdx :
    ∀ (segs : List (List Ev)) (base : Nat),
      (∀ k seg, segs.get? k = some seg → ∀ e ∈ seg, e.batchIdx = base + k) →
      List.Pairwise (fun x y => Ev.batchIdx x ≤ Ev.batchIdx y) segs.flatten := by
  intro segs
  induction segs with
  | nil => intro base _; simp
  | cons seg rest ih =>
    intro base h
    rw [List.flatten_cons]
    apply List.pairwise_append.mpr
    refine ⟨?_, ?_, ?_⟩
    · apply List.pairwise_of_forall_mem_list
      intro a ha b hb
      rw [h 0 seg rfl a ha, h 0 seg rfl b hb]
    · apply ih (base + 1)
      intro k s hk e he
      have := h (k + 1) s hk e he
      omega
    · intro a ha b hb
      have ha' := h 0 seg rfl a ha
      obtain ⟨s, hs, hb'⟩ := List.mem_flatten.mp hb
      obtain ⟨k2, hk2⟩ := List.mem_iff_get?.mp hs
      have hb'' := h (k2 + 1) s hk2 b hb'
      omega

theorem mainTrace_batchIdx (countries : List String) (mids : Nat → List Ev)
    (hmids : ∀ b, ∀ e ∈ mids b, e.batchIdx = b) :
    List.Pairwise (fun x y => Ev.batchIdx x ≤ Ev.batchIdx y)
      (mainTrace countries mids) := by
  unfold mainTrace
  apply pairwise_flatten_batchIdx _ 0
  intro k seg hk e he
  rw [List.get?_eq_getElem?, List.getElem?_map, List.getElem?_enum] at hk
  cases hx : (pyRangeBy countries.length 5)[k]? with
  | none => rw [hx] at hk; cases hk
  | some x =>
    rw [hx] at hk
    simp at hk
    rw [← hk] at he
    unfold batchTrace at he
    rcases List.mem_append.mp he with he' | he'
    · rcases List.mem_append.mp he' with ho | hm
      · obtain ⟨c, _, rfl⟩ := List.mem_map.mp ho
        simp [Ev.batchIdx]
      · have := hmids k e hm
        omega
    · obtain ⟨c, _, rfl⟩ := List.mem_map.mp he'
      simp [Ev.batchIdx]

/-! ### The two branches of `extract_price_details` -/

theorem extractPassthrough (s : String) (h : s = "" ∨ containsMonth s.data = false) :
    extract_price_details s = (strUnknown, String.mk [], s) := by
  unfold extract_price_details
  rcases h with rfl | h
  · rfl
  · have hcond : (s.data.isEmpty || !containsMonth s.data) = true := by
      rw [h]
      simp
    rw [hcond]
    rfl

theorem extract_month_branch (s : String) (hm : containsMonth s.data = true) :
    extract_price_details s =
      (String.mk (match firstRun isCurrencyChar (pricePartOf s) with
        | some run => run
        | none => strUnknown.data),
       String.mk (match firstRun isNumChar (pricePartOf s) with
        | some run => run.filter (fun c => !(c == ','))
        | none => []),
       String.mk (match findMonth (pyStrip s.data) with
        | some p => pyStrip (firstSeg p.2)
        | none => [])) := by
  have hne : s.data.isEmpty = false := by
    cases hd : s.data with
    | nil =>
      rw [hd] at hm
      exact absurd hm (by decide)
    | cons c cs => rfl
  have hcond : (s.data.isEmpty || !containsMonth s.data) = false := by
    rw [hne, hm]
    rfl
  unfold extract_price_details pricePartOf
  rw [hcond]
  rfl

/-! ### Claim theorems -/

/-- C1: for every country and page handle, `process_country` returns a
non-empty sequence of records; when the page renders successfully and either
no heading containing "Pricing" is found or the pricing section yields zero
list items containing a colon, it returns exactly the single
`{country, N/A, N/A, "", "", ""}` record. -/
theorem scrape_nonempty_and_na_fallback (c : String) (page : Page) :
    process_country c page ≠ [] ∧
      ∀ doc, firstRaise page = none → page.content = Step.ok doc →
        (doc = Doc.noHeader ∨ colonItems doc = []) →
        process_country c page = [naRecord c] := by
  constructor
  · rcases process_country_cases c page with ⟨m, _, he⟩ | ⟨doc, _, _, hd⟩
    · rw [he]
      simp
    · rw [hd, processDoc_eq]
      cases hres : (parseRows c doc).isEmpty
      · rw [if_neg (by simp [hres])]
        intro hcontra
        rw [hcontra] at hres
        cases hres
      · rw [if_pos (by simp [hres])]
        simp
  · intro doc hfr hct hcol
    rcases process_country_cases c page with ⟨m, hm, _⟩ | ⟨doc', _, hct', hd⟩
    · rw [hfr] at hm
      cases hm
    · have hdd : doc' = doc := by
        rw [hct] at hct'
        cases hct'
        rfl
      rw [hdd] at hd
      have hcol' : colonItems doc = [] := by
        rcases hcol with rfl | hcol
        · rfl
        · exact hcol
      rw [hd, processDoc_eq]
      have hrows : parseRows c doc = [] := by
        cases doc with
        | noHeader => rfl
        | headerNoUl => rfl
        | headerUl items =>
          apply List.filterMap_eq_nil_iff.mpr
          intro li hli
          have hnc := List.filter_eq_nil_iff.mp hcol' li hli
          unfold parseLi
          cases hcb : containsList [ ':'] li.data
          · rfl
          · exact absurd hcb hnc
      rw [hrows]
      rfl

/-- Witness for C1 at a page whose pricing list has no colon item. -/
theorem scrape_nonempty_and_na_fallback_witness :
    process_country "Canada" (okPageOf (Doc.headerUl [ "no colon here" ]))
      = [naRecord "Canada"] :=
  (scrape_nonempty_and_na_fallback "Canada"
    (okPageOf (Doc.headerUl [ "no colon here" ]))).2
    (Doc.headerUl [ "no colon here" ]) rfl rfl (Or.inr (by decide))

/-- C2 counterexample: an exception raised by the cookie-consent click (one
of the interaction steps) is swallowed by the inner handler and NOT converted
into an ERROR record — the scrape continues and here returns the N/A record. -/
theorem cookie_exception_swallowed :
    cookieFailPage.cookieClick = Step.raise "cookie banner missing" ∧
    process_country "France" cookieFailPage = [naRecord "France"] ∧
    naRecord "France" ≠ errorRecord "France" "cookie banner missing" := by
  refine ⟨rfl, rfl, ?_⟩
  decide

/-- C2 (amended): any exception reaching the outer boundary — i.e. raised in
any step other than the best-effort cookie dismissal, whose exceptions are
swallowed locally — is converted into exactly
`[{country, ERROR, <message>, "", "", ""}]`. -/
theorem error_record_on_raise (c m : String) (page : Page)
    (h : firstRaise page = some m) :
    process_country c page = [errorRecord c m] := by
  rcases process_country_cases c page with ⟨m2, hm2, he⟩ | ⟨doc, hfr, _, _⟩
  · rw [h] at hm2
    cases hm2
    exact he
  · rw [h] at hfr
    cases hfr

/-- Witness for C2 at a page whose navigation times out. -/
theorem error_record_on_raise_witness :
    process_country "Wakanda" gotoFailPage
      = [errorRecord "Wakanda" "Timeout 60000ms exceeded"] :=
  error_record_on_raise "Wakanda" "Timeout 60000ms exceeded" gotoFailPage rfl

/-- C3: the orchestrator works through consecutive batches of 5 (12 countries
give batch sizes 5, 5, 2), and its flattened result equals the concatenation
of each country's record sequence in CountryList order, for EVERY per-batch
completion order (gather returns results positionally). -/
theorem batch_order_deterministic (env : String → Page) (countries : List String)
    (sched : Nat → List Nat)
    (h : ∀ i ∈ pyRangeBy countries.length 5,
      (sched i).Perm (List.range (batchSlice countries i).length)) :
    mainResults env countries sched
      = (countries.map (fun c => process_country c (env c))).flatten ∧
      (countries.length = 12 → (batches5 countries).map List.length = [5, 5, 2]) := by
  refine ⟨mainResults_eq env countries sched h, ?_⟩
  intro h12
  unfold batches5
  rw [h12, show pyRangeBy 12 5 = [0, 5, 10] from by decide]
  simp [batchSlice, h12]

/-- Witness for C3: twelve countries, each batch completing in reverse
order. -/
theorem batch_order_deterministic_witness :
    mainResults wEnv wCountries wSched
      = (wCountries.map (fun c => process_country c (wEnv c))).flatten ∧
      (wCountries.length = 12 → (batches5 wCountries).map List.length = [5, 5, 2]) :=
  batch_order_deterministic wEnv wCountries wSched (by decide)

/-- C8: batches are strictly serialized — along the orchestrator's event
trace (tab opens, scrape steps, tab closes), every event of a lower-numbered
batch precedes every event of a higher-numbered batch, whatever the in-batch
interleaving of the concurrent scrapes; in particular no batch-(N+1) tab
opens or scrape steps before all batch-N scrapes finished and all batch-N
tabs closed. -/
theorem batches_serialized (countries : List String) (mids : Nat → List Ev)
    (hmids : ∀ b, ∀ e ∈ mids b, e.batchIdx = b)
    (p q : Fin (mainTrace countries mids).length)
    (hlt : Ev.batchIdx ((mainTrace countries mids).get p)
      < Ev.batchIdx ((mainTrace countries mids).get q)) :
    p < q := by
  by_contra hnot
  push_neg at hnot
  rcases eq_or_lt_of_le hnot with heq | hlt2
  · rw [heq] at hlt
    exact lt_irrefl _ hlt
  · have hmono := (List.pairwise_iff_get.mp
      (mainTrace_batchIdx countries mids hmids)) q p hlt2
    omega

/-- Witness for C8 on the twelve-country trace: the first batch-0 event
precedes the last batch-2 event. -/
theorem batches_serialized_witness :
    (⟨0, by decide⟩ : Fin (mainTrace wCountries wMids).length) < ⟨23, by decide⟩ :=
  batches_serialized wCountries wMids
    (fun b e he => absurd he (List.not_mem_nil e))
    ⟨0, by decide⟩ ⟨23, by decide⟩ (by decide)

/-- C4: for every string that is empty or lacks the case-insensitive
substring "month", `extract_price_details` returns `("Unknown", "", input)`
with the input passed through unchanged; in particular on the empty string it
returns `("Unknown", "", "")`. -/
theorem extract_passthrough_claim :
    (∀ s : String, s = "" ∨ containsMonth s.data = false →
      extract_price_details s = ( "Unknown", "", s)) ∧
    extract_price_details "" = ( "Unknown", "", "") := by
  constructor
  · intro s h
    exact extractPassthrough s h
  · exact extractPassthrough "" (Or.inl rfl)

/-- Witness for C4 at a non-empty month-free string. -/
theorem extract_passthrough_claim_witness :
    extract_price_details "no marker here" = ( "Unknown", "", "no marker here") :=
  extract_passthrough_claim.1 "no marker here" (Or.inr (by decide))

/-- C5 counterexample: with two `/month` occurrences the produced note is
only the text BETWEEN the first and the second occurrence ("x"), not
everything after the first occurrence ("x/month y"). -/
theorem note_between_occurrences_cex :
    findMonth (pyStrip (( "$5/month x/month y" : String)).data)
        = some ((( "$5" : String)).data, (( " x/month y" : String)).data) ∧
    String.mk (pyStrip (( " x/month y" : String)).data) = "x/month y" ∧
    (extract_price_details "$5/month x/month y").2.2 = "x" ∧
    ( "x" : String) ≠ "x/month y" := by
  decide

/-- C5 (amended): the input is split at the FIRST case-insensitive occurrence
of `/\s*month` (no earlier position matches); the price segment scanned for
currency/amount is the stripped text before it, and the note is the text
between that occurrence and the NEXT occurrence (or the end of the string if
none), trimmed. -/
theorem split_on_first_month_marker (s : String) (b rest : List Char)
    (hm : containsMonth s.data = true)
    (hf : findMonth (pyStrip s.data) = some (b, rest)) :
    (∃ mid, pyStrip s.data = b ++ mid ∧ monthPatAt mid = some rest) ∧
    (∀ j < b.length, monthPatAt ((pyStrip s.data).drop j) = none) ∧
    (∀ j < (firstSeg rest).length, monthPatAt (rest.drop j) = none) ∧
    (extract_price_details s).2.2 = String.mk (pyStrip (firstSeg rest)) ∧
    pricePartOf s = pyStrip b := by
  obtain ⟨hdecomp, hnone⟩ := findMonth_eq_some hf
  refine ⟨hdecomp, hnone, ?_, ?_, ?_⟩
  · cases hr : findMonth rest with
    | none =>
      intro j _
      exact findMonth_eq_none hr j
    | some p =>
      obtain ⟨p1, p2⟩ := p
      obtain ⟨_, hnone2⟩ := findMonth_eq_some hr
      intro j hj
      apply hnone2 j
      unfold firstSeg at hj
      rw [hr] at hj
      exact hj
  · rw [extract_month_branch s hm, hf]
  · unfold pricePartOf firstSeg
    rw [hf]

/-- Witness for C5 at the double-occurrence input. -/
theorem split_on_first_month_marker_witness :
    (extract_price_details "$5/month x/month y").2.2
      = String.mk (pyStrip (firstSeg (( " x/month y" : String)).data)) :=
  (split_on_first_month_marker "$5/month x/month y" (( "$5" : String)).data
    (( " x/month y" : String)).data (by decide) (by decide)).2.2.2.1

/-- C6 counterexample: on "./month" the price segment "." contains no digit,
yet the returned amount is "." — not the empty string the claim requires. -/
theorem amount_without_digits_cex :
    extract_price_details "./month" = ( "Unknown", ".", "") ∧
    pricePartOf ( "./month" : String) = [ '.'] ∧
    (∀ c ∈ pricePartOf ( "./month" : String), c.isDigit = false) ∧
    ( "." : String) ≠ "" := by
  decide

/-- C6 (amended): for month-marked input the amount is the first contiguous
run of digits/commas/periods of the price segment with all commas removed
(empty when the segment has no such character — but possibly a non-empty
all-punctuation string when it has periods or commas and no digit); the
Amount field of every emitted record never contains a comma. -/
theorem amount_first_numeric_run :
    (∀ (s : String) (run : List Char), containsMonth s.data = true →
      firstRun isNumChar (pricePartOf s) = some run →
      (extract_price_details s).2.1 = String.mk (run.filter (fun c => !(c == ','))) ∧
      ∃ a b2, pricePartOf s = a ++ run ++ b2 ∧ (∀ c ∈ a, isNumChar c = false) ∧
        run ≠ [] ∧ (∀ c ∈ run, isNumChar c = true) ∧
        ∀ c, b2.head? = some c → isNumChar c = false) ∧
    (∀ s : String, containsMonth s.data = true →
      (∀ c ∈ pricePartOf s, isNumChar c = false) →
      (extract_price_details s).2.1 = "") ∧
    (∀ (c : String) (page : Page) (r : PriceRecord), r ∈ process_country c page →
      ',' ∉ r.amount.data) := by
  refine ⟨?_, ?_, ?_⟩
  · intro s run hm hr
    constructor
    · rw [extract_month_branch s hm, hr]
    · exact firstRun_some_spec isNumChar _ run hr
  · intro s hm hall
    rw [extract_month_branch s hm, (firstRun_eq_none_iff _ _).mpr hall]
  · intro c page r hr
    rcases mem_process_country hr with ⟨m, rfl⟩ | rfl | ⟨li, hli⟩
    · simp [errorRecord]
    · simp [naRecord]
    · obtain ⟨_, _, _, _, ham, _, _⟩ := parseLi_some hli
      rw [ham]
      exact comma_not_mem_extract_amount r.price

/-- Witness for C6 at "$15.49/month". -/
theorem amount_first_numeric_run_witness :
    (extract_price_details "$15.49/month").2.1
      = String.mk ((( "15.49" : String)).data.filter (fun c => !(c == ','))) :=
  (amount_first_numeric_run.1 "$15.49/month" (( "15.49" : String)).data
    (by decide) (by decide)).1

/-- C7 counterexample: a parsed row whose price text is non-empty but lacks
the month marker still gets Currency "Unknown" (the passthrough branch), so
"Unknown" does not occur only for marker-bearing texts without a currency
token. -/
theorem currency_unknown_without_marker_cex :
    processDoc "X" (Doc.headerUl [ "Plan: 10 dollars" ])
        = [{ country := "X", plan := "Plan", price := "10 dollars",
             currency := "Unknown", amount := "", note := "10 dollars" }] ∧
    containsMonth (( "10 dollars" : String)).data = false ∧
    ( "10 dollars" : String) ≠ "" := by
  decide

/-- C7 (amended): Currency is "Unknown" when the price text is empty or lacks
the month marker (passthrough), and when the marker is present but the price
segment holds no currency token; when a token is found it is returned as-is.
In emitted records, an empty Currency occurs exactly on the N/A and ERROR
fallback rows, and every other record's Currency comes from
`extract_price_details` applied to its price text. -/
theorem currency_unknown_cases :
    (∀ s : String, s = "" ∨ containsMonth s.data = false →
      (extract_price_details s).1 = "Unknown") ∧
    (∀ s : String, containsMonth s.data = true →
      firstRun isCurrencyChar (pricePartOf s) = none →
      (extract_price_details s).1 = "Unknown") ∧
    (∀ (s : String) (run : List Char), containsMonth s.data = true →
      firstRun isCurrencyChar (pricePartOf s) = some run →
      (extract_price_details s).1 = String.mk run) ∧
    (∀ (c : String) (page : Page) (r : PriceRecord), r ∈ process_country c page →
      (r.currency = "" → r.plan = "N/A" ∨ r.plan = "ERROR") ∧
      (r.currency ≠ "" → r.currency = (extract_price_details r.price).1)) := by
  refine ⟨?_, ?_, ?_, ?_⟩
  · intro s h
    rw [extractPassthrough s h]
    rfl
  · intro s hm hnone
    rw [extract_month_branch s hm, hnone]
    rfl
  · intro s run hm hsome
    rw [extract_month_branch s hm, hsome]
  · intro c page r hr
    constructor
    · intro hcur
      rcases mem_process_country hr with ⟨m, rfl⟩ | rfl | ⟨li, hli⟩
      · right
        rfl
      · left
        rfl
      · obtain ⟨_, _, _, hcur', _, _, _⟩ := parseLi_some hli
        rw [hcur'] at hcur
        exact absurd hcur (extract_currency_ne_empty r.price)
    · intro hne
      rcases mem_process_country hr with ⟨m, rfl⟩ | rfl | ⟨li, hli⟩
      · exact absurd rfl hne
      · exact absurd rfl hne
      · exact (parseLi_some hli).2.2.2.1

/-- Witness for C7 at a marker-bearing text with no currency token. -/
theorem currency_unknown_cases_witness :
    (extract_price_details "15 / month").1 = "Unknown" :=
  currency_unknown_cases.2.1 "15 / month" (by decide) (by decide)

/-- C9 counterexample: for the list item "Standard: $5/month" the raw text
after the first colon is " $5/month", but the stored price field is the
trimmed "$5/month". -/
theorem price_trimmed_cex :
    parseLi "X" "Standard: $5/month"
        = some { country := "X", plan := "Standard", price := "$5/month",
                 currency := "$", amount := "5", note := "" } ∧
    splitFirstColon (pyStrip (( "Standard: $5/month" : String)).data)
        = ((( "Standard" : String)).data, (( " $5/month" : String)).data) ∧
    ( "$5/month" : String) ≠ " $5/month" := by
  decide

/-- C9 (amended): every parsed record's price field holds the text after the
first colon of the stripped list item, with surrounding whitespace stripped
(not the raw untrimmed text). -/
theorem price_after_first_colon_trimmed (c li : String) (r : PriceRecord)
    (h : parseLi c li = some r) :
    ∃ pre post, pyStrip li.data = pre ++ ':' :: post ∧ ':' ∉ pre ∧
      r.price = String.mk (pyStrip post) ∧ r.plan = String.mk (pyStrip pre) ∧
      r.country = c := by
  obtain ⟨hc, hprice, hplan, _, _, _, hmem⟩ := parseLi_some h
  have hmem' : ':' ∈ pyStrip li.data := mem_pyStrip_of_mem hmem (by decide)
  obtain ⟨hdec, hnot⟩ := splitFirstColon_spec _ hmem'
  exact ⟨(splitFirstColon (pyStrip li.data)).1, (splitFirstColon (pyStrip li.data)).2,
    hdec, hnot, hprice, hplan, hc⟩

/-- Witness for C9 at the item "Standard: $5/month". -/
theorem price_after_first_colon_trimmed_witness :
    ∃ pre post,
      pyStrip (( "Standard: $5/month" : String)).data = pre ++ ':' :: post ∧
      ':' ∉ pre ∧
      ({ country := "X", plan := "Standard", price := "$5/month",
         currency := "$", amount := "5", note := "" } : PriceRecord).price
        = String.mk (pyStrip post) ∧
      ({ country := "X", plan := "Standard", price := "$5/month",
         currency := "$", amount := "5", note := "" } : PriceRecord).plan
        = String.mk (pyStrip pre) ∧
      ({ country := "X", plan := "Standard", price := "$5/month",
         currency := "$", amount := "5", note := "" } : PriceRecord).country
        = "X" :=
  price_after_first_colon_trimmed "X" "Standard: $5/month" _ (by decide)

/-- C10: an input containing "month" (case-insensitively) but no occurrence
of the `/\s*month` pattern does not take the passthrough branch: the note is
empty and the currency token and amount are scanned from the entire stripped
input string. -/
theorem month_marker_without_slash (s : String)
    (hm : containsMonth s.data = true)
    (hn : ∀ j ≤ (pyStrip s.data).length, monthPatAt ((pyStrip s.data).drop j) = none) :
    (extract_price_details s).2.2 = "" ∧
    pricePartOf s = pyStrip s.data ∧
    (extract_price_details s).1
      = String.mk (match firstRun isCurrencyChar (pyStrip s.data) with
        | some run => run
        | none => strUnknown.data) ∧
    (extract_price_details s).2.1
      = String.mk (match firstRun isNumChar (pyStrip s.data) with
        | some run => run.filter (fun c => !(c == ','))
        | none => []) := by
  have hfm : findMonth (pyStrip s.data) = none := by
    cases hf : findMonth (pyStrip s.data) with
    | none => rfl
    | some p =>
      obtain ⟨p1, p2⟩ := p
      obtain ⟨⟨mid, hdec, hmid⟩, _⟩ := findMonth_eq_some hf
      exfalso
      have hlen : p1.length ≤ (pyStrip s.data).length := by
        rw [hdec]
        simp
      have hcontra := hn p1.length hlen
      rw [hdec, List.drop_left, hmid] at hcontra
      cases hcontra
  have hpp : pricePartOf s = pyStrip s.data := by
    unfold pricePartOf firstSeg
    rw [hfm, pyStrip_idem]
  refine ⟨?_, hpp, ?_, ?_⟩
  · rw [extract_month_branch s hm, hfm]
  · rw [extract_month_branch s hm, hpp]
  · rw [extract_month_branch s hm, hpp]

/-- Witness for C10 at "15.49 per month". -/
theorem month_marker_without_slash_witness :
    (extract_price_details "15.49 per month").2.2 = "" :=
  (month_marker_without_slash "15.49 per month" (by decide) (by decide)).1

end NetflixScraper

